import Mathlib

/-!
Shallow embedding of the core of `evaluate.py`: the item normalizer
(`parse_target_field`, `normalize_item`, `items_from_entry`), the scorer
(`update_counts` and the two passes of `evaluate`), and the metrics
aggregator (`safe_div`, `compute_metrics`).

Python strings are modelled as Lean `String`; Python's `str.strip` and
`str.lower` are embedded as `pstrip` and `plower` below, defined over the
underlying character list.  Python runtime values that can appear in a
`target` payload (the output of `json.loads`, plus the tuples produced by
`normalize_item`) are modelled by the mutual inductive family
`PyVal`/`PyList`/`PyPairs` (a dict is carried as its key-value list in
insertion order).  Ratios are computed in `ℚ` (the code uses Python
floats; every metric here is a ratio of small integers, exact in both).
`json.loads` itself is I/O glue around the core and is modelled as an
explicit parameter `decode : String → Option PyVal`, where `Option.none`
stands for `json.JSONDecodeError`.
-/

/-- Embedding of Python `str.strip` on the leading side:
drop leading whitespace characters. -/
def stripl (l : List Char) : List Char := l.dropWhile Char.isWhitespace

/-- Embedding of Python `str.strip` on the trailing side:
drop trailing whitespace characters. -/
def stripr (l : List Char) : List Char :=
  (l.reverse.dropWhile Char.isWhitespace).reverse

/-- Embedding of Python `str.strip`: remove leading and trailing whitespace. -/
def pstrip (s : String) : String := ⟨stripr (stripl s.data)⟩

/-- Embedding of Python `str.lower`: lowercase every character. -/
def plower (s : String) : String := ⟨s.data.map Char.toLower⟩

mutual
/-- Python runtime values relevant to `target` payloads: the values
`json.loads` can produce (strings, integers, booleans, `None`, lists,
string-keyed dicts) together with the tuples built by `normalize_item`. -/
inductive PyVal : Type where
  | str (s : String)
  | int (n : Int)
  | bool (b : Bool)
  | null
  | list (xs : PyList)
  | tuple (xs : PyList)
  | dict (kvs : PyPairs)
  deriving DecidableEq
/-- A Python list/tuple payload, as a sequence of `PyVal`s. -/
inductive PyList : Type where
  | nil
  | cons (v : PyVal) (tl : PyList)
  deriving DecidableEq
/-- A Python dict payload: its `(key, value)` items in insertion order. -/
inductive PyPairs : Type where
  | nil
  | cons (k : String) (v : PyVal) (tl : PyPairs)
  deriving DecidableEq
end

/-- View a `PyList` as a Lean list. -/
def PyList.toList : PyList → List PyVal
  | .nil => []
  | .cons v tl => v :: tl.toList

/-- Build a `PyList` from a Lean list. -/
def PyList.ofList : List PyVal → PyList
  | [] => .nil
  | v :: vs => .cons v (PyList.ofList vs)

/-- View a `PyPairs` as a Lean association list. -/
def PyPairs.toList : PyPairs → List (String × PyVal)
  | .nil => []
  | .cons k v tl => (k, v) :: tl.toList

/-- The constant `SENTINEL_NON_OP = "statement-non-opinion"` (evaluate.py line 28). -/
def SENTINEL_NON_OP : String := "statement-non-opinion"

/-- Embedding of `parse_target_field` (evaluate.py lines 52-64).
`decode` stands for `json.loads` applied to the stripped payload text. -/
def parse_target_field (decode : String → Option PyVal) :
    Option String → PyVal
  | Option.none => .list .nil
  | Option.some raw =>
    let text := pstrip raw
    if text = "" then .list .nil
    else if plower text = SENTINEL_NON_OP then .str SENTINEL_NON_OP
    else
      match decode text with
      | Option.some v => v
      | Option.none => .str text

/-- The order in which Python's `sorted` arranges the `(key, value)` pairs
of a dict: lexicographic comparison of the keys.  (Python compares the
`(key, normalized value)` tuples lexicographically; dict keys are distinct,
so the comparison is always decided by the keys.) -/
def keyLe (a b : String × PyVal) : Prop := a.1.data ≤ b.1.data

instance : DecidableRel keyLe :=
  fun a b => inferInstanceAs (Decidable (a.1.data ≤ b.1.data))

instance : IsTotal (String × PyVal) keyLe :=
  ⟨fun a b => le_total a.1.data b.1.data⟩

instance : IsTrans (String × PyVal) keyLe :=
  ⟨fun _ _ _ h1 h2 => le_trans h1 h2⟩

/-- The strict version of `keyLe` on pairs with distinct keys. -/
def keyLtNe (a b : String × PyVal) : Prop := keyLe a b ∧ a.1 ≠ b.1

instance : IsAntisymm (String × PyVal) keyLtNe :=
  ⟨fun _ _ h1 h2 =>
    absurd (congrArg String.mk (le_antisymm h1.1 h2.1) : _ = _) h1.2⟩

/-- Embedding of `sorted(...)` over dict items (evaluate.py line 74). -/
def sortPairs (l : List (String × PyVal)) : List (String × PyVal) :=
  List.insertionSort keyLe l

mutual
/-- Embedding of `normalize_item` (evaluate.py lines 67-75).
Strings are stripped; a list becomes the tuple of its normalized elements;
a dict becomes the tuple of its sorted `(key, normalized value)` 2-tuples
(the key itself is not normalized); every other value — ints, bools,
`None`, and tuples — falls through the `isinstance` checks and is
returned unchanged. -/
def normalize_item : PyVal → PyVal
  | .str s => .str (pstrip s)
  | .int n => .int n
  | .bool b => .bool b
  | .null => .null
  | .tuple xs => .tuple xs
  | .list xs => .tuple (normalizeList xs)
  | .dict kvs =>
    .tuple (PyList.ofList
      ((sortPairs (normalizePairs kvs)).map
        (fun kv => PyVal.tuple (.cons (.str kv.1) (.cons kv.2 .nil)))))
/-- The comprehension `normalize_item(v) for v in value` over a list payload. -/
def normalizeList : PyList → PyList
  | .nil => .nil
  | .cons v tl => .cons (normalize_item v) (normalizeList tl)
/-- The generator `(k, normalize_item(v)) for k, v in value.items()`. -/
def normalizePairs : PyPairs → List (String × PyVal)
  | .nil => []
  | .cons k v tl => (k, normalize_item v) :: normalizePairs tl
end

/-- A loaded record, keeping the two fields the core reads.  `entry.get`
on a missing key yields Python `None`, hence the `Option`s. -/
structure Entry where
  task_type : Option String
  target : Option String
  deriving DecidableEq

/-- Embedding of `items_from_entry` (evaluate.py lines 78-92).  A loaded
record is a non-empty dict (it has a `sample_id`), so Python's
`if not entry` is exactly the `Option.none` case. -/
def items_from_entry (decode : String → Option PyVal) :
    Option Entry → Finset PyVal
  | Option.none => ∅
  | Option.some e =>
    let parsed := parse_target_field decode e.target
    if parsed = PyVal.str SENTINEL_NON_OP then ∅
    else
      let iterable : List PyVal :=
        match parsed with
        | .list xs => xs.toList
        | p => if p = PyVal.null ∨ p = PyVal.str "" then [] else [p]
      ((iterable.filter fun it =>
          decide (¬(it = PyVal.null ∨ it = PyVal.str ""))).map
        normalize_item).toFinset

/-- Per-task true/false positive/negative tallies (one `Counter`). -/
structure Counts where
  tp : ℕ
  fp : ℕ
  fn : ℕ
  deriving DecidableEq

/-- Embedding of `update_counts` (evaluate.py lines 121-133): add the
set-intersection/difference cardinalities to the counter of `task`. -/
def update_counts (stats : String → Counts) (task : String)
    (g p : Finset PyVal) : String → Counts :=
  fun t =>
    if t = task then
      { tp := (stats task).tp + (g ∩ p).card
        fp := (stats task).fp + (p \ g).card
        fn := (stats task).fn + (g \ p).card }
    else stats t

/-- A loaded collection: `sample_id`-keyed records in file order.
`load_records` rejects duplicate keys, so lookups hit at most one entry. -/
def lookupRec (rs : List (String × Entry)) (sid : String) : Option Entry :=
  (rs.find? fun r => r.1 == sid).map Prod.snd

/-- The predicted item set used when scoring a gold sample
(evaluate.py line 203): `items_from_entry(pred_records.get(sample_id))`. -/
def pred_items_for (decode : String → Option PyVal)
    (pred : List (String × Entry)) (sid : String) : Finset PyVal :=
  items_from_entry decode (lookupRec pred sid)

/-- One iteration of the gold pass of `evaluate` (lines 198-204). -/
def step_gold (decode : String → Option PyVal)
    (pred : List (String × Entry)) (tasks : List String)
    (stats : String → Counts) (r : String × Entry) : String → Counts :=
  match r.2.task_type with
  | Option.some task =>
    if task ∈ tasks then
      update_counts stats task (items_from_entry decode (Option.some r.2))
        (pred_items_for decode pred r.1)
    else stats
  | Option.none => stats

/-- One iteration of the prediction-only pass of `evaluate`
(lines 206-211): every predicted item of a sample absent from gold
is a false positive of the sample's task. -/
def step_pred (decode : String → Option PyVal)
    (gold : List (String × Entry)) (tasks : List String)
    (stats : String → Counts) (r : String × Entry) : String → Counts :=
  match r.2.task_type with
  | Option.some task =>
    if task ∈ tasks ∧ lookupRec gold r.1 = Option.none then
      fun t =>
        if t = task then
          { tp := (stats task).tp
            fp := (stats task).fp +
              (items_from_entry decode (Option.some r.2)).card
            fn := (stats task).fn }
        else stats t
    else stats
  | Option.none => stats

/-- The accumulated counters of `evaluate` (lines 196-211): zeros, then
the gold pass, then the prediction-only pass. -/
def evalStats (decode : String → Option PyVal)
    (gold pred : List (String × Entry)) (tasks : List String) :
    String → Counts :=
  pred.foldl (step_pred decode gold tasks)
    (gold.foldl (step_gold decode pred tasks) fun _ => ⟨0, 0, 0⟩)

/-- Embedding of `safe_div` (evaluate.py lines 136-137). -/
def safe_div (numerator denominator : ℚ) : ℚ :=
  if denominator ≠ 0 then numerator / denominator else 0

/-- One metrics row: precision/«recall»/F1 plus the raw counts. -/
structure Metrics where
  precision : ℚ
  «recall» : ℚ
  f1 : ℚ
  tp : ℕ
  fp : ℕ
  fn : ℕ
  deriving DecidableEq

/-- The metrics row derived from one counter
(evaluate.py lines 146-156 and 157-167: same formulas for tasks and
for the overall row). -/
def metricsOf (c : Counts) : Metrics :=
  let precision := safe_div c.tp (c.tp + c.fp)
  let «recall» := safe_div c.tp (c.tp + c.fn)
  let f1 := safe_div (2 * precision * «recall») (precision + «recall»)
  ⟨precision, «recall», f1, c.tp, c.fp, c.fn⟩

/-- The running total `total += counts` of `compute_metrics`
(evaluate.py lines 143-145). -/
def sumCounts (stats : List (String × Counts)) : Counts :=
  stats.foldl (fun acc sc => ⟨acc.tp + sc.2.tp, acc.fp + sc.2.fp, acc.fn + sc.2.fn⟩)
    ⟨0, 0, 0⟩

/-- Embedding of `compute_metrics` (evaluate.py lines 140-168): one row
per task in order, then the synthetic `"overall"` row derived from the
summed counts. -/
def compute_metrics (stats : List (String × Counts)) :
    List (String × Metrics) :=
  stats.map (fun sc => (sc.1, metricsOf sc.2)) ++
    [("overall", metricsOf (sumCounts stats))]

/-- The metrics table of one `evaluate` run (lines 196-213): the stats
dict holds exactly the requested tasks, in order. -/
def evaluateMetrics (decode : String → Option PyVal)
    (gold pred : List (String × Entry)) (tasks : List String) :
    List (String × Metrics) :=
  compute_metrics (tasks.map fun t => (t, evalStats decode gold pred tasks t))

/-- A decoder on which structured decoding always fails: `json.loads`
raises on every payload text this development feeds it (bare words such
as `hello` or `b` are not valid JSON documents). -/
def dec0 : String → Option PyVal := fun _ => Option.none

/-- A decoder knowing the single JSON document `[" "]`: `json.loads`
turns it into the one-element list containing the whitespace string. -/
def dec1 : String → Option PyVal := fun s =>
  if s = "[\" \"]" then Option.some (.list (.cons (.str " ") .nil))
  else Option.none

/-- A decoder knowing the single JSON document `[""]`: `json.loads`
turns it into the one-element list containing the empty string. -/
def dec2 : String → Option PyVal := fun s =>
  if s = "[\"\"]" then Option.some (.list (.cons (.str "") .nil))
  else Option.none

/-! ### Properties of the string helpers -/

/-- `dropWhile` leaves a list alone when its head does not satisfy `p`. -/
theorem dropWhile_head_not {p : Char → Bool} {l : List Char}
    (h : ∀ c, l.head? = Option.some c → p c = false) : l.dropWhile p = l := by
  cases l with
  | nil => rfl
  | cons a t => simp [List.dropWhile_cons, h a rfl]

/-- The head surviving a `dropWhile` does not satisfy the predicate. -/
theorem head?_dropWhile {p : Char → Bool} :
    ∀ {l : List Char} {c : Char},
      (l.dropWhile p).head? = Option.some c → p c = false := by
  intro l
  induction l with
  | nil => intro c h; cases h
  | cons a t ih =>
    intro c h
    rw [List.dropWhile_cons] at h
    by_cases hp : p a
    · rw [if_pos hp] at h
      exact ih h
    · rw [if_neg hp] at h
      cases h
      exact Bool.of_not_eq_true hp

theorem stripl_idem (l : List Char) : stripl (stripl l) = stripl l :=
  dropWhile_head_not fun _ h => head?_dropWhile h

/-- `stripr` removes a suffix: what is left is a prefix of the input. -/
theorem stripr_append (l : List Char) : ∃ t, stripr l ++ t = l := by
  obtain ⟨t, ht⟩ := List.dropWhile_suffix (l := l.reverse) Char.isWhitespace
  refine ⟨t.reverse, ?_⟩
  have := congrArg List.reverse ht
  simpa [stripr] using this

theorem head?_stripr {l : List Char} {c : Char}
    (h : (stripr l).head? = Option.some c) : l.head? = Option.some c := by
  obtain ⟨t, ht⟩ := stripr_append l
  cases hs : stripr l with
  | nil => rw [hs] at h; cases h
  | cons a r =>
    rw [hs] at h ht
    cases h
    rw [← ht]
    rfl

theorem stripl_stripr_stripl (l : List Char) :
    stripl (stripr (stripl l)) = stripr (stripl l) :=
  dropWhile_head_not fun _ h => head?_dropWhile (head?_stripr h)

theorem stripr_idem (l : List Char) : stripr (stripr l) = stripr l := by
  unfold stripr
  rw [List.reverse_reverse]
  rw [show (l.reverse.dropWhile Char.isWhitespace).dropWhile Char.isWhitespace =
    l.reverse.dropWhile Char.isWhitespace from stripl_idem l.reverse]

/-- Python's `strip` is idempotent. -/
theorem pstrip_idem (s : String) : pstrip (pstrip s) = pstrip s := by
  show (⟨stripr (stripl (stripr (stripl s.data)))⟩ : String) = ⟨stripr (stripl s.data)⟩
  rw [stripl_stripr_stripl, stripr_idem]

/-- Lowercasing does not change a whitespace character. -/
theorem toLower_of_isWhitespace {c : Char} (h : c.isWhitespace = true) :
    c.toLower = c := by
  have h4 : ((c = ' ' ∨ c = '\t') ∨ c = '\r') ∨ c = '\n' := by
    simpa [Char.isWhitespace] using h
  rcases h4 with ((rfl | rfl) | rfl) | rfl <;> decide

/-- A character whose lowercase form is not whitespace is not whitespace. -/
theorem not_ws_of_toLower {c d : Char} (h : c.toLower = d)
    (hd : d.isWhitespace = false) : c.isWhitespace = false := by
  cases hws : c.isWhitespace with
  | false => rfl
  | true =>
    have hc := toLower_of_isWhitespace hws
    rw [h] at hc
    rw [← hc] at hws
    rw [hws] at hd
    cases hd

/-- A string that lowercases to the sentinel has no surrounding
whitespace, so stripping leaves it unchanged. -/
theorem pstrip_of_plower_sentinel {s : String}
    (h : plower s = SENTINEL_NON_OP) : pstrip s = s := by
  have hd : s.data.map Char.toLower = SENTINEL_NON_OP.data := congrArg String.data h
  have hl : stripl s.data = s.data := by
    apply dropWhile_head_not
    intro c hc
    have h1 : (s.data.map Char.toLower).head? = Option.some 's' := by
      rw [hd]; decide
    rw [List.head?_map, hc] at h1
    exact not_ws_of_toLower (Option.some.inj h1) (by decide)
  have hr : s.data.reverse.dropWhile Char.isWhitespace = s.data.reverse := by
    apply dropWhile_head_not
    intro c hc
    have h1 : (s.data.reverse.map Char.toLower).head? = Option.some 'n' := by
      rw [List.map_reverse, hd]; decide
    rw [List.head?_map, hc] at h1
    exact not_ws_of_toLower (Option.some.inj h1) (by decide)
  show (⟨stripr (stripl s.data)⟩ : String) = s
  rw [hl]
  unfold stripr
  rw [hr, List.reverse_reverse]

/-! ### Properties of the normalizer -/

/-- Unfolding: `normalizeList` is `normalize_item` mapped over the elements. -/
theorem normalizeList_toList :
    ∀ xs : PyList, (normalizeList xs).toList = xs.toList.map normalize_item
  | .nil => rfl
  | .cons v tl => by
    simp [normalizeList, PyList.toList, normalizeList_toList tl]

/-- Unfolding: `normalizePairs` is the generator over the dict items. -/
theorem normalizePairs_toList :
    ∀ kvs : PyPairs,
      normalizePairs kvs = kvs.toList.map fun kv => (kv.1, normalize_item kv.2)
  | .nil => rfl
  | .cons k v tl => by
    simp [normalizePairs, PyPairs.toList, normalizePairs_toList tl]

/-- Only `None` normalizes to `None`. -/
theorem normalize_item_eq_null {v : PyVal} :
    normalize_item v = PyVal.null ↔ v = PyVal.null := by
  cases v <;> simp [normalize_item]

/-! ### Determinism of the dict-item sort -/

/-- Strings with equal character data are equal. -/
theorem string_data_inj {a b : String} (h : a.data = b.data) : a = b :=
  congrArg String.mk h

/-- Sorting by key maps permuted inputs with duplicate-free keys to the
same output: the canonical form is insertion-order independent. -/
theorem sortPairs_perm_eq {p1 p2 : List (String × PyVal)}
    (h : List.Perm p1 p2) (hkeys : (p1.map Prod.fst).Nodup) :
    sortPairs p1 = sortPairs p2 := by
  have hs1 : List.Sorted keyLe (sortPairs p1) :=
    List.sorted_insertionSort keyLe p1
  have hs2 : List.Sorted keyLe (sortPairs p2) :=
    List.sorted_insertionSort keyLe p2
  have hp : List.Perm (sortPairs p1) (sortPairs p2) :=
    (List.perm_insertionSort keyLe p1).trans
      (h.trans (List.perm_insertionSort keyLe p2).symm)
  have hk1 : ((sortPairs p1).map Prod.fst).Nodup :=
    (((List.perm_insertionSort keyLe p1).map Prod.fst).nodup_iff).mpr hkeys
  have hk2 : ((sortPairs p2).map Prod.fst).Nodup :=
    ((hp.map Prod.fst).nodup_iff).mp hk1
  have hne1 : (sortPairs p1).Pairwise fun a b => a.1 ≠ b.1 :=
    List.pairwise_map.mp hk1
  have hne2 : (sortPairs p2).Pairwise fun a b => a.1 ≠ b.1 :=
    List.pairwise_map.mp hk2
  have hlt1 : (sortPairs p1).Pairwise keyLtNe := hs1.and hne1
  have hlt2 : (sortPairs p2).Pairwise keyLtNe := hs2.and hne2
  exact List.eq_of_perm_of_sorted hp hlt1 hlt2

/-! ### Properties of the two passes of `evaluate` -/

/-- A key absent from a collection matches no record of it. -/
theorem lookupRec_eq_none {rs : List (String × Entry)} {sid : String}
    (h : lookupRec rs sid = Option.none) : ∀ r ∈ rs, r.1 ≠ sid := by
  intro r hr
  unfold lookupRec at h
  rw [Option.map_eq_none'] at h
  have := List.find?_eq_none.mp h r hr
  simpa using this

/-- Appending a record under a fresh key does not change other lookups. -/
theorem lookupRec_append_ne {rs : List (String × Entry)}
    {x : String × Entry} {sid : String} (h : x.1 ≠ sid) :
    lookupRec (rs ++ [x]) sid = lookupRec rs sid := by
  unfold lookupRec
  rw [List.find?_append]
  have hb : (x.1 == sid) = false := by simpa using h
  have hx : List.find? (fun r => r.1 == sid) [x] = Option.none := by
    simp [List.find?, hb]
  rw [hx, Option.or_none]

/-- A gold-pass step is unaffected by a prediction record for a sample id
different from the gold record's. -/
theorem step_gold_append_ne (decode : String → Option PyVal)
    (pred : List (String × Entry)) (x : String × Entry)
    (tasks : List String) (stats : String → Counts)
    (r : String × Entry) (h : x.1 ≠ r.1) :
    step_gold decode (pred ++ [x]) tasks stats r =
      step_gold decode pred tasks stats r := by
  unfold step_gold pred_items_for
  rw [lookupRec_append_ne h]

/-- The whole gold pass is unaffected by a prediction record whose sample
id is not a gold key. -/
theorem foldl_step_gold_append_ne (decode : String → Option PyVal)
    (pred : List (String × Entry)) (x : String × Entry)
    (tasks : List String) :
    ∀ (gold : List (String × Entry)) (init : String → Counts),
      (∀ r ∈ gold, r.1 ≠ x.1) →
      gold.foldl (step_gold decode (pred ++ [x]) tasks) init =
        gold.foldl (step_gold decode pred tasks) init := by
  intro gold
  induction gold with
  | nil => intro init _; rfl
  | cons r gs ih =>
    intro init hk
    rw [List.foldl_cons, List.foldl_cons,
      step_gold_append_ne decode pred x tasks init r
        (fun he => hk r (by simp) he.symm)]
    exact ih _ fun q hq => hk q (by simp [hq])

/-- Appending one prediction-only record: the stats become one
`step_pred` on top of the original run. -/
theorem evalStats_append_pred (decode : String → Option PyVal)
    (gold pred : List (String × Entry)) (tasks : List String)
    (x : String × Entry) (hx : lookupRec gold x.1 = Option.none) :
    evalStats decode gold (pred ++ [x]) tasks =
      step_pred decode gold tasks (evalStats decode gold pred tasks) x := by
  unfold evalStats
  rw [foldl_step_gold_append_ne decode pred x tasks gold _
    (fun r hr => lookupRec_eq_none hx r hr),
    List.foldl_append, List.foldl_cons, List.foldl_nil]

/-! ### Properties of the metrics aggregator -/

theorem safe_div_nonneg {a b : ℚ} (ha : 0 ≤ a) (hb : 0 ≤ b) :
    0 ≤ safe_div a b := by
  unfold safe_div
  split_ifs with h
  · exact div_nonneg ha hb
  · exact le_refl 0

theorem safe_div_le_one {a b : ℚ} (ha : 0 ≤ a) (hab : a ≤ b) :
    safe_div a b ≤ 1 := by
  unfold safe_div
  split_ifs with h
  · rw [div_le_one (lt_of_le_of_ne (ha.trans hab) (Ne.symm h))]
    exact hab
  · exact zero_le_one

theorem safe_div_denom_zero {a b : ℚ} (h : b = 0) : safe_div a b = 0 := by
  simp [safe_div, h]

/-- The running total of `compute_metrics` sums each field. -/
theorem sumCounts_foldl :
    ∀ (l : List (String × Counts)) (acc : Counts),
      l.foldl (fun acc sc =>
        ⟨acc.tp + sc.2.tp, acc.fp + sc.2.fp, acc.fn + sc.2.fn⟩) acc =
      ⟨acc.tp + (l.map fun sc => sc.2.tp).sum,
        acc.fp + (l.map fun sc => sc.2.fp).sum,
        acc.fn + (l.map fun sc => sc.2.fn).sum⟩
  | [], acc => by simp
  | sc :: l, acc => by
    rw [List.foldl_cons, sumCounts_foldl l]
    simp [add_assoc]

theorem sumCounts_spec (stats : List (String × Counts)) :
    sumCounts stats =
      ⟨(stats.map fun sc => sc.2.tp).sum,
        (stats.map fun sc => sc.2.fp).sum,
        (stats.map fun sc => sc.2.fn).sum⟩ := by
  unfold sumCounts
  rw [sumCounts_foldl]
  simp

/-- Nothing in a filtered-then-normalized item list is `None`: the filter
removes raw `None`s and nothing else normalizes to `None`. -/
theorem filtered_null_free (l : List PyVal) :
    PyVal.null ∉ ((l.filter fun it =>
      decide (¬(it = PyVal.null ∨ it = PyVal.str ""))).map normalize_item).toFinset := by
  intro hmem
  rw [List.mem_toFinset] at hmem
  obtain ⟨it, hit, hnorm⟩ := List.mem_map.mp hmem
  have hit2 := (List.mem_filter.mp hit).2
  have : it = PyVal.null := normalize_item_eq_null.mp hnorm
  subst this
  simp at hit2

/-! ### The claims -/

/-- Claim C1, counterexample: the claim says an element that normalizes
to the empty string (such as a whitespace-only string) does not appear in
the item set.  It does: on the record with `target = '[" "]'` (whose JSON
decoding is the one-element list containing a whitespace-only string),
`items_from_entry` keeps the element — the filter runs on the raw items,
before normalization — and the result contains the empty string. -/
theorem C1_counterexample :
    PyVal.str "" ∈ items_from_entry dec1
      (Option.some ⟨Option.none, Option.some "[\" \"]"⟩) := by decide

/-- Claim C1, amended: the item set produced by `items_from_entry`
contains no item equal to `None`, and raw elements equal to `None` or the
empty string are discarded — the decoded payload `[""]` yields the empty
item set; but the filter runs before normalization, so an element that
merely normalizes to the empty string (e.g. the whitespace-only element
of the decoded payload `[" "]`) is kept and appears as the empty
string. -/
theorem C1_amended :
    (∀ (decode : String → Option PyVal) (entry : Option Entry),
      PyVal.null ∉ items_from_entry decode entry) ∧
    items_from_entry dec2 (Option.some ⟨Option.none, Option.some "[\"\"]"⟩) =
      ∅ ∧
    items_from_entry dec1 (Option.some ⟨Option.none, Option.some "[\" \"]"⟩) =
      {PyVal.str ""} := by
  refine ⟨?_, by decide, by decide⟩
  intro decode entry
  cases entry with
  | none => simp [items_from_entry]
  | some e =>
    simp only [items_from_entry]
    split_ifs with hs
    · simp
    · exact filtered_null_free _

/-- Claim C2, counterexample: the claim says the predicted item set used
for scoring a gold sample is empty when the prediction record for that
sample does not have the gold record's task type.  The code never
inspects the prediction record's `task_type` in the gold pass: here the
gold sample `s1` has task `targets`, the prediction record for `s1` has
task `aspects`, yet the predicted set used is the non-empty `{"b"}` and
the run books `fp = 1` under `targets` (the claim would give `fp = 0`). -/
theorem C2_counterexample :
    Entry.task_type ⟨Option.some "aspects", Option.some "b"⟩ ≠
      Option.some "targets" ∧
    lookupRec [("s1", ⟨Option.some "aspects", Option.some "b"⟩)] "s1" =
      Option.some ⟨Option.some "aspects", Option.some "b"⟩ ∧
    pred_items_for dec0
      [("s1", ⟨Option.some "aspects", Option.some "b"⟩)] "s1" ≠ ∅ ∧
    evalStats dec0 [("s1", ⟨Option.some "targets", Option.some "a"⟩)]
      [("s1", ⟨Option.some "aspects", Option.some "b"⟩)] ["targets"] "targets" =
      ⟨0, 1, 1⟩ := by decide

/-- Claim C2, amended: in the gold pass the predicted item set used for
scoring is `items_from_entry` of the prediction record looked up by
sample id alone — the empty set when the sample is absent from the
prediction collection, and the normalized item set of the prediction
record otherwise, regardless of that record's `task_type`. -/
theorem C2_amended (decode : String → Option PyVal)
    (pred : List (String × Entry)) (sid : String) :
    (lookupRec pred sid = Option.none → pred_items_for decode pred sid = ∅) ∧
    ∀ e, lookupRec pred sid = Option.some e →
      pred_items_for decode pred sid = items_from_entry decode (Option.some e) := by
  constructor
  · intro h
    unfold pred_items_for
    rw [h]
    rfl
  · intro e h
    unfold pred_items_for
    rw [h]

/-- Witness for the amended claim C2 at concrete inputs. -/
theorem C2_amended_witness :
    pred_items_for dec0 [] "s1" = ∅ ∧
    pred_items_for dec0 [("s1", ⟨Option.some "aspects", Option.some "b"⟩)] "s1" =
      items_from_entry dec0
        (Option.some ⟨Option.some "aspects", Option.some "b"⟩) :=
  ⟨(C2_amended dec0 [] "s1").1 rfl,
   (C2_amended dec0 [("s1", ⟨Option.some "aspects", Option.some "b"⟩)] "s1").2
     ⟨Option.some "aspects", Option.some "b"⟩ (by decide)⟩

/-- Claim C3: a record whose `target` is, case-insensitively, exactly the
sentinel `"statement-non-opinion"` yields the empty item set, so it is
never compared as a literal string; and scoring an empty set against any
opposite-side item set adds 0 to `tp` and 0 to the counter of its own
side (the `fn` counter when the record is gold, the `fp` counter when it
is a prediction). -/
theorem C3_sentinel_scores_zero (decode : String → Option PyVal) (e : Entry)
    (raw : String) (htgt : e.target = Option.some raw)
    (hlow : plower raw = SENTINEL_NON_OP) :
    items_from_entry decode (Option.some e) = ∅ ∧
    (∀ (stats : String → Counts) (task : String) (p : Finset PyVal),
      update_counts stats task ∅ p task =
        ⟨(stats task).tp, (stats task).fp + p.card, (stats task).fn⟩) ∧
    (∀ (stats : String → Counts) (task : String) (g : Finset PyVal),
      update_counts stats task g ∅ task =
        ⟨(stats task).tp, (stats task).fp, (stats task).fn + g.card⟩) := by
  refine ⟨?_, ?_, ?_⟩
  · have hps : pstrip raw = raw := pstrip_of_plower_sentinel hlow
    have hne : raw ≠ "" := by
      intro h0
      rw [h0] at hlow
      exact absurd hlow (by decide)
    simp [items_from_entry, parse_target_field, htgt, hps, hne, hlow]
  · intro stats task p
    simp [update_counts]
  · intro stats task g
    simp [update_counts]

/-- Witness for claim C3 on a concrete mixed-case sentinel record. -/
theorem C3_sentinel_scores_zero_witness :
    items_from_entry dec0 (Option.some ⟨Option.some "targets",
      Option.some "Statement-NON-Opinion"⟩) = ∅ ∧
    update_counts (fun _ => ⟨0, 0, 0⟩) "targets" ∅ {PyVal.str "x"} "targets" =
      ⟨0, 1, 0⟩ := by
  have h := C3_sentinel_scores_zero dec0
    ⟨Option.some "targets", Option.some "Statement-NON-Opinion"⟩
    "Statement-NON-Opinion" rfl (by decide)
  refine ⟨h.1, ?_⟩
  rw [h.2.1]
  decide

/-- Claim C4: the `"overall"` row is a micro-average — its `tp`, `fp`,
`fn` are the sums of the per-task counts and its precision/recall/F1 are
derived by the `safe_div` formulas from those sums; on the two tasks
(tp=1, fp=1, fn=0) and (tp=2, fp=0, fn=1) the overall row is tp=3, fp=1,
fn=1 with precision, recall and F1 all 3/4, which differs from the mean
of the per-task F1 scores. -/
theorem C4_overall_micro_average :
    (∀ stats : List (String × Counts),
      (compute_metrics stats).getLast? =
        Option.some ("overall", metricsOf (sumCounts stats)) ∧
      (sumCounts stats).tp = (stats.map fun sc => sc.2.tp).sum ∧
      (sumCounts stats).fp = (stats.map fun sc => sc.2.fp).sum ∧
      (sumCounts stats).fn = (stats.map fun sc => sc.2.fn).sum ∧
      (metricsOf (sumCounts stats)).precision =
        safe_div ((sumCounts stats).tp : ℚ)
          (((sumCounts stats).tp : ℚ) + ((sumCounts stats).fp : ℚ)) ∧
      (metricsOf (sumCounts stats)).«recall» =
        safe_div ((sumCounts stats).tp : ℚ)
          (((sumCounts stats).tp : ℚ) + ((sumCounts stats).fn : ℚ)) ∧
      (metricsOf (sumCounts stats)).f1 =
        safe_div (2 * (metricsOf (sumCounts stats)).precision *
            (metricsOf (sumCounts stats)).«recall»)
          ((metricsOf (sumCounts stats)).precision +
            (metricsOf (sumCounts stats)).«recall»)) ∧
    compute_metrics [("t1", ⟨1, 1, 0⟩), ("t2", ⟨2, 0, 1⟩)] =
      [("t1", metricsOf ⟨1, 1, 0⟩), ("t2", metricsOf ⟨2, 0, 1⟩),
        ("overall", ⟨3/4, 3/4, 3/4, 3, 1, 1⟩)] ∧
    ((metricsOf ⟨1, 1, 0⟩).f1 + (metricsOf ⟨2, 0, 1⟩).f1) / 2 ≠ 3/4 := by
  refine ⟨fun stats => ⟨?_, ?_, ?_, ?_, rfl, rfl, rfl⟩, ?_, ?_⟩
  · unfold compute_metrics
    exact List.getLast?_concat _
  · rw [sumCounts_spec]
  · rw [sumCounts_spec]
  · rw [sumCounts_spec]
  · show _ = _
    norm_num [compute_metrics, sumCounts_spec, metricsOf, safe_div,
      Metrics.mk.injEq]
  · norm_num [metricsOf, safe_div]

/-- Claim C5: for every accumulated counter, precision, recall and F1
all lie in `[0, 1]`, and each defaults to `0` when its denominator is
zero (`tp + fp = 0` for precision, `tp + fn = 0` for recall, and
`precision + recall = 0` for F1); the aggregator is a total function on
`ℚ`, so no exception and no NaN can arise. -/
theorem C5_metric_bounds (c : Counts) :
    0 ≤ (metricsOf c).precision ∧ (metricsOf c).precision ≤ 1 ∧
    0 ≤ (metricsOf c).«recall» ∧ (metricsOf c).«recall» ≤ 1 ∧
    0 ≤ (metricsOf c).f1 ∧ (metricsOf c).f1 ≤ 1 ∧
    (c.tp + c.fp = 0 → (metricsOf c).precision = 0) ∧
    (c.tp + c.fn = 0 → (metricsOf c).«recall» = 0) ∧
    ((metricsOf c).precision + (metricsOf c).«recall» = 0 →
      (metricsOf c).f1 = 0) := by
  have eP : (metricsOf c).precision =
      safe_div (c.tp : ℚ) ((c.tp : ℚ) + (c.fp : ℚ)) := rfl
  have eR : (metricsOf c).«recall» =
      safe_div (c.tp : ℚ) ((c.tp : ℚ) + (c.fn : ℚ)) := rfl
  have eF : (metricsOf c).f1 =
      safe_div (2 * (metricsOf c).precision * (metricsOf c).«recall»)
        ((metricsOf c).precision + (metricsOf c).«recall») := rfl
  have hP0 : 0 ≤ (metricsOf c).precision := by
    rw [eP]
    exact safe_div_nonneg (by positivity) (by positivity)
  have hP1 : (metricsOf c).precision ≤ 1 := by
    rw [eP]
    exact safe_div_le_one (by positivity) (le_add_of_nonneg_right (by positivity))
  have hR0 : 0 ≤ (metricsOf c).«recall» := by
    rw [eR]
    exact safe_div_nonneg (by positivity) (by positivity)
  have hR1 : (metricsOf c).«recall» ≤ 1 := by
    rw [eR]
    exact safe_div_le_one (by positivity) (le_add_of_nonneg_right (by positivity))
  have hnum : (0:ℚ) ≤ 2 * (metricsOf c).precision * (metricsOf c).«recall» :=
    mul_nonneg (mul_nonneg (by norm_num) hP0) hR0
  have hF0 : 0 ≤ (metricsOf c).f1 := by
    rw [eF]
    exact safe_div_nonneg hnum (add_nonneg hP0 hR0)
  have hF1 : (metricsOf c).f1 ≤ 1 := by
    rw [eF]
    apply safe_div_le_one hnum
    nlinarith [hP0, hP1, hR0, hR1]
  refine ⟨hP0, hP1, hR0, hR1, hF0, hF1, ?_, ?_, ?_⟩
  · intro h
    rw [eP]
    apply safe_div_denom_zero
    have hc : (c.tp : ℚ) + (c.fp : ℚ) = ((c.tp + c.fp : ℕ) : ℚ) := by
      push_cast
      ring
    rw [hc, h]
    norm_num
  · intro h
    rw [eR]
    apply safe_div_denom_zero
    have hc : (c.tp : ℚ) + (c.fn : ℚ) = ((c.tp + c.fn : ℕ) : ℚ) := by
      push_cast
      ring
    rw [hc, h]
    norm_num
  · intro h
    rw [eF]
    exact safe_div_denom_zero h

/-- Witness for claim C5 at the all-zero counter, discharging all three
zero-denominator hypotheses. -/
theorem C5_metric_bounds_witness :
    (metricsOf ⟨0, 0, 0⟩).precision = 0 ∧ (metricsOf ⟨0, 0, 0⟩).«recall» = 0 ∧
      (metricsOf ⟨0, 0, 0⟩).f1 = 0 := by
  have h := C5_metric_bounds ⟨0, 0, 0⟩
  have hP := h.2.2.2.2.2.2.1 rfl
  have hR := h.2.2.2.2.2.2.2.1 rfl
  exact ⟨hP, hR, h.2.2.2.2.2.2.2.2 (by rw [hP, hR]; norm_num)⟩

/-- Claim C6: adding a prediction-only sample (absent from gold) whose
task is requested makes all of its predicted items false positives of
that task, and changes no `tp` or `fn` counter of any task and no `fp`
counter of any other task. -/
theorem C6_pred_only_fp (decode : String → Option PyVal)
    (gold pred : List (String × Entry)) (tasks : List String)
    (sid : String) (e : Entry) (t : String)
    (htask : e.task_type = Option.some t) (hmem : t ∈ tasks)
    (hgold : lookupRec gold sid = Option.none) :
    (evalStats decode gold (pred ++ [(sid, e)]) tasks t).fp =
      (evalStats decode gold pred tasks t).fp +
        (items_from_entry decode (Option.some e)).card ∧
    (∀ u, (evalStats decode gold (pred ++ [(sid, e)]) tasks u).tp =
      (evalStats decode gold pred tasks u).tp) ∧
    (∀ u, (evalStats decode gold (pred ++ [(sid, e)]) tasks u).fn =
      (evalStats decode gold pred tasks u).fn) ∧
    ∀ u, u ≠ t → (evalStats decode gold (pred ++ [(sid, e)]) tasks u).fp =
      (evalStats decode gold pred tasks u).fp := by
  have hstep := evalStats_append_pred decode gold pred tasks (sid, e) hgold
  rw [hstep]
  unfold step_pred
  simp only [htask]
  rw [if_pos ⟨hmem, hgold⟩]
  refine ⟨by simp, fun u => ?_, fun u => ?_, fun u hu => ?_⟩
  · by_cases hu : u = t
    · subst hu
      simp
    · simp [hu]
  · by_cases hu : u = t
    · subst hu
      simp
    · simp [hu]
  · simp [hu]

/-- Witness for claim C6: spec scenario 3, an ungrounded prediction for
sample `s3` under task `aspects`. -/
theorem C6_pred_only_fp_witness :
    (evalStats dec0 []
        ([] ++ [("s3", ⟨Option.some "aspects", Option.some "screen"⟩)])
        ["aspects"] "aspects").fp =
      (evalStats dec0 [] [] ["aspects"] "aspects").fp +
        (items_from_entry dec0
          (Option.some ⟨Option.some "aspects", Option.some "screen"⟩)).card ∧
    (∀ u, (evalStats dec0 []
        ([] ++ [("s3", ⟨Option.some "aspects", Option.some "screen"⟩)])
        ["aspects"] u).tp = (evalStats dec0 [] [] ["aspects"] u).tp) ∧
    (∀ u, (evalStats dec0 []
        ([] ++ [("s3", ⟨Option.some "aspects", Option.some "screen"⟩)])
        ["aspects"] u).fn = (evalStats dec0 [] [] ["aspects"] u).fn) ∧
    ∀ u, u ≠ "aspects" →
      (evalStats dec0 []
        ([] ++ [("s3", ⟨Option.some "aspects", Option.some "screen"⟩)])
        ["aspects"] u).fp = (evalStats dec0 [] [] ["aspects"] u).fp :=
  C6_pred_only_fp dec0 [] [] ["aspects"] "s3"
    ⟨Option.some "aspects", Option.some "screen"⟩ "aspects" rfl (by decide) rfl

/-- Claim C7: on a record whose stripped `target` text is non-empty, not
the sentinel, and on which structured decoding fails, normalization does
not fail: the whole text becomes one opaque string item, so
`items_from_entry` is exactly the singleton of the stripped text (the
embedding is a total function — no run is aborted). -/
theorem C7_decode_failure_opaque (decode : String → Option PyVal) (e : Entry)
    (raw : String) (htgt : e.target = Option.some raw)
    (hne : pstrip raw ≠ "")
    (hsent : plower (pstrip raw) ≠ SENTINEL_NON_OP)
    (hdec : decode (pstrip raw) = Option.none) :
    items_from_entry decode (Option.some e) = {PyVal.str (pstrip raw)} := by
  have hts : pstrip raw ≠ SENTINEL_NON_OP := by
    intro h0
    rw [h0] at hsent
    exact hsent (by decide)
  simp [items_from_entry, parse_target_field, htgt, hne, hsent, hdec, hts,
    normalize_item, pstrip_idem]

/-- Witness for claim C7 on a concrete non-JSON payload. -/
theorem C7_decode_failure_opaque_witness :
    items_from_entry dec0 (Option.some ⟨Option.some "targets",
      Option.some " hello "⟩) = {PyVal.str "hello"} := by
  have h := C7_decode_failure_opaque dec0
    ⟨Option.some "targets", Option.some " hello "⟩ " hello " rfl
    (by decide) (by decide) rfl
  rw [h]
  decide

/-- Claim C8: normalization is idempotent — normalizing an
already-normalized value yields the same value. -/
theorem C8_normalize_idempotent :
    ∀ v : PyVal, normalize_item (normalize_item v) = normalize_item v := by
  intro v
  cases v with
  | str s => simp [normalize_item, pstrip_idem]
  | int n => rfl
  | bool b => rfl
  | null => rfl
  | tuple xs => rfl
  | list xs => rfl
  | dict kvs => rfl

/-- Claim C9: normalization of key-value mappings is insertion-order
independent — two dicts holding the same `(key, value)` pairs (distinct
keys, as Python dicts guarantee) in different orders normalize to the
same canonical item. -/
theorem C9_dict_order_independent (kvs1 kvs2 : PyPairs)
    (hperm : List.Perm kvs1.toList kvs2.toList)
    (hkeys : (kvs1.toList.map Prod.fst).Nodup) :
    normalize_item (.dict kvs1) = normalize_item (.dict kvs2) := by
  have h1 : List.Perm (normalizePairs kvs1) (normalizePairs kvs2) := by
    rw [normalizePairs_toList, normalizePairs_toList]
    exact hperm.map _
  have h2 : ((normalizePairs kvs1).map Prod.fst).Nodup := by
    rw [normalizePairs_toList, List.map_map]
    exact hkeys
  have hs := sortPairs_perm_eq h1 h2
  simp only [normalize_item]
  rw [hs]

/-- Witness for claim C9: the spec's example
`normalize({"a": 1, "b": 2}) = normalize({"b": 2, "a": 1})`. -/
theorem C9_dict_order_independent_witness :
    normalize_item (.dict (.cons "a" (.int 1) (.cons "b" (.int 2) .nil))) =
      normalize_item (.dict (.cons "b" (.int 2) (.cons "a" (.int 1) .nil))) :=
  C9_dict_order_independent _ _ (by decide) (by decide)

/-- Claim C10 (implicit): the non-opinion sentinel is recognized after
trimming surrounding whitespace — every record whose stripped, lowered
`target` equals `"statement-non-opinion"` yields the empty item set. -/
theorem C10_sentinel_trimmed (decode : String → Option PyVal) (e : Entry)
    (raw : String) (htgt : e.target = Option.some raw)
    (hlow : plower (pstrip raw) = SENTINEL_NON_OP) :
    items_from_entry decode (Option.some e) = ∅ := by
  have hne : pstrip raw ≠ "" := by
    intro h0
    rw [h0] at hlow
    exact absurd hlow (by decide)
  simp [items_from_entry, parse_target_field, htgt, hne, hlow]

/-- Witness for claim C10 on the spec's example
`"  Statement-Non-Opinion  "`. -/
theorem C10_sentinel_trimmed_witness :
    items_from_entry dec0 (Option.some ⟨Option.some "targets",
      Option.some "  Statement-Non-Opinion  "⟩) = ∅ :=
  C10_sentinel_trimmed dec0 _ "  Statement-Non-Opinion  " rfl (by decide)
